import Mathlib

/-!
Verification of the key-lens decoration engine.

The development shallowly embeds the two variants of the engine:

* variant A: the single-file variant (`extension.ts`), whose state holds a
  *set* of suppressed lines (`hiddenLines : Set<number>`) and whose file
  filter is a list of filename glob patterns (`filePatterns`);
* variant B: the split variant (`key-lens-provider.ts`), whose state holds
  at most *one* suppressed line (`hiddenLine?: number`) and whose file
  filter is an extension allow-list (`extensions`).

Document text, keys and values are modelled as `List Char`.  The dictionary
is an association list in insertion order, mirroring a JS object.  The
constructed regular expression `(['"`])escapeRegExp(key)\1` is embedded by
tokenising the escaped key (`lexPattern`) and scanning the text for
left-to-right non-overlapping matches exactly as `RegExp.exec` with the `g`
flag does (`scanFromAux`).  All definitions are structurally recursive so
that concrete runs reduce inside the kernel.
-/

namespace KeyLens

/-- The single-quote character (written via its code point). -/
def squote : Char := Char.ofNat 39

/-- The backtick character (written via its code point). -/
def btick : Char := Char.ofNat 96

/-- The open-brace character (written via its code point). -/
def obrace : Char := Char.ofNat 123

/-- The close-brace character (written via its code point). -/
def cbrace : Char := Char.ofNat 125

/-- The three quote characters of the character class `['"\x60]` in the
constructed regular expression. -/
def quoteChars : List Char := [squote, '"', btick]

/-- The characters escaped by `escapeRegExp`, from the character class
`[.*+?^$\x7b\x7d()|[\]\\]` in the source. -/
def regexMetaChars : List Char :=
  ['.', '*', '+', '?', '^', '$', obrace, cbrace, '(', ')', '|', '[', ']', '\\']

/-- Model of `escapeRegExp`: `string.replace(/[.*+?^$\x7b\x7d()|[\]\\]/g, "\\$&")` —
puts a backslash before every regular-expression metacharacter. -/
def escapeRegExp : List Char → List Char
  | [] => []
  | c :: rest =>
    if regexMetaChars.contains c then '\\' :: c :: escapeRegExp rest
    else c :: escapeRegExp rest

/-- A token of the fixed-width fragment of the constructed regular
expression: a literal character or the `.` wildcard. -/
inductive PatTok where
  | anyc
  | lit (c : Char)
deriving DecidableEq, Repr

/-- Reading of the escaped-key fragment of the pattern by the regex engine:
`\c` stands for the literal `c`, an unescaped `.` matches any character, any
other character stands for itself.  (The input always comes from
`escapeRegExp`, so a trailing backslash — a syntax error for the real
engine — cannot occur; it is read as a literal backslash here.) -/
def lexPattern : List Char → List PatTok
  | [] => []
  | '\\' :: [] => [PatTok.lit '\\']
  | '\\' :: d :: rest2 => PatTok.lit d :: lexPattern rest2
  | '.' :: rest => PatTok.anyc :: lexPattern rest
  | c :: rest => PatTok.lit c :: lexPattern rest

/-- The token list of the escaped key, i.e. the part of the pattern between
the opening quote and the backreference. -/
def keyToks (key : List Char) : List PatTok := lexPattern (escapeRegExp key)

/-- Pointwise matching of the fixed-width token list against a character
list of the same length. -/
def patToksMatch : List PatTok → List Char → Bool
  | [], [] => true
  | PatTok.anyc :: ps, _ :: t => patToksMatch ps t
  | PatTok.lit c :: ps, d :: t => (c == d) && patToksMatch ps t
  | _, _ => false

/-- Length (in characters) of any match of `(['"\x60])key\1`: the escaped
key plus the two quotes. -/
def patLen (key : List Char) : Nat := (keyToks key).length + 2

/-- Does the pattern `(['"\x60])escapeRegExp(key)\1` match at offset `i` of
`text`: an opening quote character, the key, and the same quote again. -/
def matchAt (key text : List Char) (i : Nat) : Bool :=
  match text[i]?, text[i + (keyToks key).length + 1]? with
  | some q1, some q2 =>
    quoteChars.contains q1 && (q1 == q2) &&
      patToksMatch (keyToks key) ((text.drop (i + 1)).take (keyToks key).length)
  | _, _ => false

/-- One step of `regex.exec` iteration with the `g` flag: from position `i`,
the leftmost match is taken and the search resumes at its end (matches are
non-overlapping); `fuel` bounds the recursion and is adequate whenever
`text.length ≤ i + fuel`. -/
def scanFromAux (key text : List Char) : Nat → Nat → List (Nat × Nat)
  | 0, _ => []
  | fuel + 1, i =>
    if i < text.length then
      if matchAt key text i then
        (i, i + patLen key) :: scanFromAux key text fuel (i + patLen key)
      else scanFromAux key text fuel (i + 1)
    else []

/-- All matches of the key's quoted pattern in `text`, as
(start offset, end offset) pairs, in left-to-right order, non-overlapping —
the matches enumerated by the `while ((match = regex.exec(text)) !== null)`
loop. -/
def scanMatches (key text : List Char) : List (Nat × Nat) :=
  scanFromAux key text (text.length + 1) 0

/-- Model of `positionAt(offset).line`: the number of newline characters strictly
before `offset`. -/
def lineOf (text : List Char) (offset : Nat) : Nat :=
  ((text.take offset).filter (fun c => c == '\n')).length

/-- A computed decoration placement: the covered offset range, the rendered
`after`-text, and the line of the range start. -/
structure Placement where
  startOffset : Nat
  endOffset : Nat
  annotationText : List Char
  lineNumber : Nat
deriving DecidableEq, Repr

/-- The fixed decorative text put before the value: `" → "` (rendered by
`contentText: \x60 → $\x7bvalue\x7d\x60`). -/
def arrowText : List Char := (" → ").data

/-- The body of the `while` loop of `updateDecorations` for one key: each
match becomes a placement unless its start line is suppressed. -/
def placementsOf (value text : List Char) (hidden : List Nat) :
    List (Nat × Nat) → List Placement
  | [] => []
  | (s, e) :: rest =>
    if hidden.contains (lineOf text s) then placementsOf value text hidden rest
    else
      { startOffset := s, endOffset := e,
        annotationText := arrowText ++ value,
        lineNumber := lineOf text s } :: placementsOf value text hidden rest

/-- A key's string-valued entries: the dictionary built by the loader. -/
abbrev KeyValueMap := List ((List Char) × List Char)

/-- All placements of one `(key, value)` entry. -/
def placementsForKey (key value text : List Char) (hidden : List Nat) :
    List Placement :=
  placementsOf value text hidden (scanMatches key text)

/-- The `for (const key in this.keyValueMap)` loop: placements of every
dictionary entry, in insertion order. -/
def scanAllKeys : KeyValueMap → List Char → List Nat → List Placement
  | [], _, _ => []
  | (k, v) :: rest, text, hidden =>
    placementsForKey k v text hidden ++ scanAllKeys rest text hidden

/-- The `KeyLensConfig` of variant A: `paths` and optional `filePatterns`. -/
structure ConfigA where
  paths : List (List Char)
  filePatterns : Option (List (List Char))

/-- The `KeyLensConfig` of variant B: `paths` and optional `extensions`. -/
structure ConfigB where
  paths : List (List Char)
  extensions : Option (List (List Char))

/-- A token of the regular expression obtained from a filename pattern by
`pattern.replace(/\*/g, ".*")`: `*` becomes `.*` (any run of characters),
`.` stays an unescaped wildcard for one character, and a character with no
regular-expression meaning stands for itself.  The pattern is placed in a
`RegExp` *unescaped*, so any further metacharacter (`+`, `?`, `^`, `$`,
`|`, parentheses, square brackets, braces, backslash) keeps its full regex
meaning — and an ill-formed pattern even makes the `RegExp` constructor
throw; those patterns are outside this token alphabet, see
`globSafePattern`. -/
inductive GlobTok where
  | star
  | dot
  | lit (c : Char)
deriving DecidableEq, Repr

/-- Compile a filename pattern the way variant A does.  This is a faithful
embedding of `new RegExp(pattern.replace(/\*/g, ".*"))` exactly for
patterns satisfying `globSafePattern` — built from `*`, `.` and characters
with no regular-expression meaning; on any other pattern the engine's
regex semantics (quantifiers, classes, alternation, possible syntax
errors) diverge from the literal reading taken here. -/
def compileGlob : List Char → List GlobTok
  | [] => []
  | c :: rest =>
    if c = '*' then GlobTok.star :: compileGlob rest
    else if c = '.' then GlobTok.dot :: compileGlob rest
    else GlobTok.lit c :: compileGlob rest

/-- Does the compiled pattern match some *prefix* of `s`?  (`star` consumes
any run of characters; the recursion is structural in the token list, using
`List.tails` to enumerate the possible remainders after a `star`.) -/
def toksMatchFrom : List GlobTok → List Char → Bool
  | [], _ => true
  | GlobTok.star :: ps, s => (s.tails).any (fun t => toksMatchFrom ps t)
  | GlobTok.dot :: ps, s =>
    match s with
    | [] => false
    | _ :: t => toksMatchFrom ps t
  | GlobTok.lit c :: ps, s =>
    match s with
    | [] => false
    | d :: t => (c == d) && toksMatchFrom ps t

/-- Model of `RegExp.test` for the compiled (unanchored) pattern: does it match
starting at *some* position of `s`? -/
def regexTestGlob (ps : List GlobTok) (s : List Char) : Bool :=
  (s.tails).any (fun t => toksMatchFrom ps t)

/-- Model of `shouldApplyToFile` of variant A: true when no configuration or no
`filePatterns` is present, otherwise true when some pattern's compiled
regular expression tests positively against the file name. -/
def shouldApplyToFileA (config : Option ConfigA) (fileName : List Char) : Bool :=
  match config with
  | none => true
  | some cfg =>
    match cfg.filePatterns with
    | none => true
    | some pats => pats.any (fun p => regexTestGlob (compileGlob p) fileName)

/-- Model of `path.extname` restricted to base names: the suffix from the last `.`
(dot included), or empty when there is no dot or the only leading character
is the dot. -/
def extname (name : List Char) : List Char :=
  let afterDot := (name.reverse.takeWhile (fun c => !(c == '.'))).reverse
  if afterDot.length = name.length then []
  else if afterDot.length + 1 = name.length then []
  else '.' :: afterDot

/-- Model of `shouldApplyToFile` of variant B: true when no configuration or no
`extensions` is present, otherwise the file's extension without the leading
dot (`path.extname(fileName).slice(1)`) must equal some listed extension. -/
def shouldApplyToFileB (config : Option ConfigB) (fileName : List Char) : Bool :=
  match config with
  | none => true
  | some cfg =>
    match cfg.extensions with
    | none => true
    | some exts =>
      let fileExtension := (extname fileName).drop 1
      exts.any (fun ext => fileExtension == ext)

/-- Model of `isKeyMappingLoaded` of variant B: the dictionary has at least one key. -/
def isKeyMappingLoaded (dict : KeyValueMap) : Bool :=
  let l : List ((List Char) × List Char) := dict
  decide (0 < l.length)

/-- The placements produced by one call of `updateDecorations` in variant A
(the `fileName` argument is the base name of the document's file).  An early
return — engine disabled or filter rejecting the file — produces nothing. -/
def updateDecorationsA (enabled : Bool) (config : Option ConfigA)
    (dict : KeyValueMap) (hidden : List Nat) (fileName text : List Char) :
    List Placement :=
  if enabled = false then []
  else if shouldApplyToFileA config fileName = false then []
  else scanAllKeys dict text hidden

/-- The suppression state of variant B (`hiddenLine?: number`) viewed as the
set of suppressed lines. -/
def hiddenOf (hiddenLine : Option Nat) : List Nat :=
  match hiddenLine with
  | none => []
  | some n => [n]

/-- The placements produced by one call of `updateDecorations` in variant B:
disabled engine, unloaded dictionary, or a rejected file produce nothing. -/
def updateDecorationsB (enabled : Bool) (config : Option ConfigB)
    (dict : KeyValueMap) (hiddenLine : Option Nat) (fileName text : List Char) :
    List Placement :=
  if enabled = false then []
  else if isKeyMappingLoaded dict = false then []
  else if shouldApplyToFileB config fileName = false then []
  else scanAllKeys dict text (hiddenOf hiddenLine)

/-- Parsed JSON values (numbers restricted to integers; the claims involve
only integral numbers). -/
inductive Json where
  | null
  | bool (b : Bool)
  | num (n : Int)
  | str (s : List Char)
  | arr (elts : List Json)
  | obj (fields : List ((List Char) × Json))

/-- The `typeof v === "object" && v !== null && !Array.isArray(v)` test. -/
def isPlainObject : Json → Bool
  | Json.obj _ => true
  | _ => false

/-- Assignment `result[key] = value` on a JS object modelled as an
association list: an existing key is updated in place, a new key is
appended. -/
def mapSet (m : KeyValueMap) (k v : List Char) : KeyValueMap :=
  let l : List ((List Char) × List Char) := m
  if l.any (fun p => p.1 == k) then
    l.map (fun p => if p.1 == k then (k, v) else p)
  else l ++ [(k, v)]

/-- The key under which a child is stored: `prefix ? prefix + "." + key :
key`. -/
def joinKey (pre key : List Char) : List Char :=
  if pre.isEmpty then key else pre ++ '.' :: key

mutual

/-- Model of `String(v)` for the JSON values that reach it: `null`, booleans and
numbers print canonically, strings are themselves, arrays join their
elements with commas (`Array.prototype.toString`), plain objects print as
`[object Object]`. -/
def jsToString : Json → List Char
  | Json.null => ("null").data
  | Json.bool true => ("true").data
  | Json.bool false => ("false").data
  | Json.num n => (toString n).data
  | Json.str s => s
  | Json.arr elts => arrJoin elts
  | Json.obj _ => ("[object Object]").data

/-- One element of `Array.prototype.join`: `null` renders empty, anything
else via `String`. -/
def arrElemToString : Json → List Char
  | Json.null => []
  | Json.bool b => jsToString (Json.bool b)
  | Json.num n => jsToString (Json.num n)
  | Json.str s => jsToString (Json.str s)
  | Json.arr elts => jsToString (Json.arr elts)
  | Json.obj fields => jsToString (Json.obj fields)

/-- Model of `Array.prototype.join(",")` over the stringified elements. -/
def arrJoin : List Json → List Char
  | [] => []
  | [e] => arrElemToString e
  | e :: e2 :: rest => arrElemToString e ++ ',' :: arrJoin (e2 :: rest)

end

mutual

/-- Model of `flattenObject(obj, prefix, result)`: `for (const key in obj)` recurses
into plain (non-null, non-array) object values joining keys with `.`, and
stores every other value stringified at the current key path.  `for … in`
over an array enumerates its indices.  (A top-level bare JSON string —
over whose indices JS `for … in` would iterate, storing one character per
index key — is not modelled; no statement below reaches that case.) -/
def flattenObject : Json → List Char → KeyValueMap → KeyValueMap
  | Json.obj fields, pre, result => flattenFields fields pre result
  | Json.arr elts, pre, result => flattenArr elts 0 pre result
  | _, _, result => result

/-- The `for … in` loop over an object's fields, in insertion order. -/
def flattenFields : List ((List Char) × Json) → List Char → KeyValueMap → KeyValueMap
  | [], _, result => result
  | (key, v) :: rest, pre, result =>
    let newKey := joinKey pre key
    let result2 :=
      if isPlainObject v then flattenObject v newKey result
      else mapSet result newKey (jsToString v)
    flattenFields rest pre result2

/-- The `for … in` loop over an array's indices (`"0"`, `"1"`, …). -/
def flattenArr : List Json → Nat → List Char → KeyValueMap → KeyValueMap
  | [], _, _, result => result
  | v :: rest, idx, pre, result =>
    let newKey := joinKey pre ((toString idx).data)
    let result2 :=
      if isPlainObject v then flattenObject v newKey result
      else mapSet result newKey (jsToString v)
    flattenArr rest (idx + 1) pre result2

end

/-- Outcome of reading and JSON-parsing one dictionary-source file:
the file may be absent (`existsSync` false), unparsable (`JSON.parse`
throwing, caught per file), or parsed. -/
inductive FileRead where
  | missing
  | parseError
  | parsed (j : Json)

/-- The per-file loop of `loadKeyValueMappings`: a parsed file is flattened
into the shared dictionary, a missing or unparsable file is skipped (its
error only logged) and the loop continues. -/
def loadFiles (files : List FileRead) (acc : KeyValueMap) : KeyValueMap :=
  match files with
  | [] => acc
  | FileRead.parsed j :: rest => loadFiles rest (flattenObject j [] acc)
  | FileRead.missing :: rest => loadFiles rest acc
  | FileRead.parseError :: rest => loadFiles rest acc

/-- Outcome of reading `keylens.config.json` (variant A): reading or parsing
may throw (also covering a missing workspace folder), the parse may yield
`null`, or a configuration object is obtained.  A successful parse also
fixes the list of dictionary-source files the configured paths resolve to. -/
inductive ConfigReadA where
  | readError
  | parsedNull
  | parsedCfg (cfg : ConfigA)

/-- Outcome of reading `keylens.config.json` (variant B). -/
inductive ConfigReadB where
  | readError
  | parsedNull
  | parsedCfg (cfg : ConfigB)

/-- Engine state of variant A. -/
structure StateA where
  keyValueMap : KeyValueMap
  isEnabled : Bool
  hiddenLines : List Nat
  config : Option ConfigA
  activeDecorations : List Placement

/-- Engine state of variant B. -/
structure StateB where
  keyValueMap : KeyValueMap
  isEnabled : Bool
  hiddenLine : Option Nat
  config : Option ConfigB
  activeDecorations : List Placement

/-- Model of `loadKeyValueMappings` of variant A as a state transformer: the
dictionary is reset first, so a read or parse failure of the configuration
leaves it empty (the stored configuration keeps its previous value when the
read throws, becomes the parse result otherwise); on success the resolved
files are folded into a fresh dictionary. -/
def loadA (cr : ConfigReadA) (files : List FileRead) (s : StateA) : StateA :=
  match cr with
  | ConfigReadA.readError => { s with keyValueMap := [] }
  | ConfigReadA.parsedNull => { s with keyValueMap := [], config := none }
  | ConfigReadA.parsedCfg cfg =>
    { s with keyValueMap := loadFiles files [], config := some cfg }

/-- Model of `loadKeyValueMappings` of variant B as a state transformer. -/
def loadB (cr : ConfigReadB) (files : List FileRead) (s : StateB) : StateB :=
  match cr with
  | ConfigReadB.readError => { s with keyValueMap := [] }
  | ConfigReadB.parsedNull => { s with keyValueMap := [], config := none }
  | ConfigReadB.parsedCfg cfg =>
    { s with keyValueMap := loadFiles files [], config := some cfg }

/-- Model of `updateDecorations` of variant A as a state transformer: on an early
return the previously stored `activeDecorations` are kept; otherwise the
recomputed placements are stored (and rendered). -/
def updateDecorationsStateA (fileName text : List Char) (s : StateA) : StateA :=
  if s.isEnabled = false then s
  else if shouldApplyToFileA s.config fileName = false then s
  else { s with activeDecorations := scanAllKeys s.keyValueMap text s.hiddenLines }

/-- Model of `updateDecorations` of variant B as a state transformer. -/
def updateDecorationsStateB (fileName text : List Char) (s : StateB) : StateB :=
  if s.isEnabled = false then s
  else if isKeyMappingLoaded s.keyValueMap = false then s
  else if shouldApplyToFileB s.config fileName = false then s
  else
    { s with activeDecorations :=
        scanAllKeys s.keyValueMap text (hiddenOf s.hiddenLine) }

/-- Model of `refresh` of variant A: clear the suppression set, reload the
dictionary, recompute the decorations of the active document. -/
def refreshA (cr : ConfigReadA) (files : List FileRead)
    (fileName text : List Char) (s : StateA) : StateA :=
  updateDecorationsStateA fileName text (loadA cr files { s with hiddenLines := [] })

/-- Model of `refresh` of variant B. -/
def refreshB (cr : ConfigReadB) (files : List FileRead)
    (fileName text : List Char) (s : StateB) : StateB :=
  updateDecorationsStateB fileName text (loadB cr files { s with hiddenLine := none })

/-- Model of `hideDecorationsForLine` of variant A: add the line to the suppression
set and recompute. -/
def hideDecorationsForLineA (lineNumber : Nat) (fileName text : List Char)
    (s : StateA) : StateA :=
  updateDecorationsStateA fileName text
    { s with hiddenLines := lineNumber :: s.hiddenLines }

/-- Model of `clearHiddenLines` of variant A: empty the suppression set and
recompute. -/
def clearHiddenLinesA (fileName text : List Char) (s : StateA) : StateA :=
  updateDecorationsStateA fileName text { s with hiddenLines := [] }

/-- Model of `hideDecorationsForLine` of variant B: the single suppressed line is
*overwritten* with the given one. -/
def hideDecorationsForLineB (lineNumber : Nat) (fileName text : List Char)
    (s : StateB) : StateB :=
  updateDecorationsStateB fileName text { s with hiddenLine := some lineNumber }

/-- Model of `clearHiddenLines` of variant B. -/
def clearHiddenLinesB (fileName text : List Char) (s : StateB) : StateB :=
  updateDecorationsStateB fileName text { s with hiddenLine := none }

/-- Model of `Range.contains(position)` over flat offsets (`positionAt` is a
monotone bijection between offsets and positions, and the range bounds are
inclusive). -/
def rangeContains (p : Placement) (off : Nat) : Bool :=
  decide (p.startOffset ≤ off) && decide (off ≤ p.endOffset)

/-- The selection-change handler of variant A: a cursor inside some
last-computed placement hides that line's decorations (the deferred
re-show 3000 ms later is real-time behaviour, outside this embedding);
a cursor elsewhere changes nothing. -/
def onSelectionA (fileName text : List Char) (off : Nat) (s : StateA) : StateA :=
  let clicked := s.activeDecorations.any (fun d => rangeContains d off)
  if clicked then hideDecorationsForLineA (lineOf text off) fileName text s
  else s

/-- The selection-change handler of variant B: a cursor inside some
last-computed placement hides that line's decorations, a cursor elsewhere
clears the suppression state. -/
def onSelectionB (fileName text : List Char) (off : Nat) (s : StateB) : StateB :=
  let clicked := s.activeDecorations.any (fun d => rangeContains d off)
  if clicked then hideDecorationsForLineB (lineOf text off) fileName text s
  else clearHiddenLinesB fileName text s

/-- Escaping then reading back the pattern turns every character of the key
into a literal token: the escaped key matches itself and nothing else. -/
theorem lexPattern_escape (k : List Char) :
    lexPattern (escapeRegExp k) = k.map PatTok.lit := by
  induction k with
  | nil => rfl
  | cons c rest ih =>
    by_cases hc : c ∈ regexMetaChars
    · simp [escapeRegExp, hc, lexPattern, ih]
    · have hb : ¬(c = '\\') := by
        intro h
        subst h
        exact hc (by decide)
      have hd : ¬(c = '.') := by
        intro h
        subst h
        exact hc (by decide)
      simp [escapeRegExp, hc, lexPattern, hb, hd, ih]

/-- The token list of a key is its characters as literals. -/
theorem keyToks_eq (k : List Char) : keyToks k = k.map PatTok.lit :=
  lexPattern_escape k

/-- A list of literal tokens matches exactly one character list: the key
itself. -/
theorem patToksMatch_lit_iff (k : List Char) :
    ∀ s : List Char, patToksMatch (k.map PatTok.lit) s = true ↔ s = k := by
  induction k with
  | nil =>
    intro s
    cases s <;> simp [patToksMatch]
  | cons c rest ih =>
    intro s
    cases s with
    | nil => simp [patToksMatch]
    | cons d t =>
      simp only [List.map_cons, patToksMatch, Bool.and_eq_true, beq_iff_eq, ih,
        List.cons_eq_cons]
      exact ⟨fun ⟨h1, h2⟩ => ⟨h1.symm, h2⟩, fun ⟨h1, h2⟩ => ⟨h1.symm, h2⟩⟩

/-- A match fits inside the text. -/
theorem matchAt_le {k text : List Char} {j : Nat} (h : matchAt k text j = true) :
    j + patLen k ≤ text.length := by
  unfold matchAt at h
  cases h1 : text[j]? with
  | none => rw [h1] at h; simp at h
  | some q1 =>
    cases h2 : text[j + (keyToks k).length + 1]? with
    | none => rw [h1, h2] at h; simp at h
    | some q2 =>
      have hlt : j + (keyToks k).length + 1 < text.length := by
        rcases List.getElem?_eq_some.mp h2 with ⟨hl, _⟩
        exact hl
      simp only [patLen]
      omega

/-- The pattern length is at least the two quotes. -/
theorem patLen_ge_two (k : List Char) : 2 ≤ patLen k := by
  simp only [patLen]
  omega

/-- Decomposition of a match: an opening quote character, the key itself
between the quotes, and the same quote at the end of the covered span. -/
theorem matchAt_spec {k text : List Char} {j : Nat}
    (h : matchAt k text j = true) :
    ∃ q, quoteChars.contains q = true ∧ text[j]? = some q ∧
      text[j + patLen k - 1]? = some q ∧
      (text.drop (j + 1)).take k.length = k := by
  unfold matchAt at h
  cases h1 : text[j]? with
  | none => rw [h1] at h; simp at h
  | some q1 =>
    cases h2 : text[j + (keyToks k).length + 1]? with
    | none => rw [h1, h2] at h; simp at h
    | some q2 =>
      rw [h1, h2] at h
      simp only [Bool.and_eq_true, beq_iff_eq] at h
      rcases h with ⟨⟨hq, he⟩, hpm⟩
      subst he
      have hlen : j + patLen k - 1 = j + (keyToks k).length + 1 := by
        simp only [patLen]
        omega
      have hend : text[j + patLen k - 1]? = some q1 := by
        rw [hlen]
        exact h2
      have hk : (text.drop (j + 1)).take k.length = k := by
        rw [keyToks_eq, List.length_map] at hpm
        exact (patToksMatch_lit_iff k _).mp hpm
      exact ⟨q1, hq, h1 ▸ rfl, hend, hk⟩

/-- Soundness of the scan: every produced pair is a match starting at its
first component and spanning exactly the pattern length. -/
theorem scanFromAux_sound (k text : List Char) :
    ∀ fuel i s e, (s, e) ∈ scanFromAux k text fuel i →
      matchAt k text s = true ∧ e = s + patLen k := by
  intro fuel
  induction fuel with
  | zero =>
    intro i s e h
    simp [scanFromAux] at h
  | succ fuel ih =>
    intro i s e h
    simp only [scanFromAux] at h
    by_cases hi : i < text.length
    · rw [if_pos hi] at h
      by_cases hm : matchAt k text i = true
      · rw [if_pos hm] at h
        rcases List.mem_cons.mp h with h1 | h1
        · have hs : s = i ∧ e = i + patLen k := by
            have := Prod.mk.injEq s e i (i + patLen k) ▸ h1
            exact ⟨congrArg Prod.fst h1, congrArg Prod.snd h1⟩
          rcases hs with ⟨hs1, hs2⟩
          subst hs1
          exact ⟨hm, hs2⟩
        · exact ih _ _ _ h1
      · rw [if_neg hm] at h
        exact ih _ _ _ h
    · rw [if_neg hi] at h
      simp at h

/-- Completeness of the scan under non-overlap: when any two distinct match
positions of the key are at least a pattern length apart, every match
position is produced by the scan (with adequate fuel). -/
theorem scanFromAux_complete (k text : List Char)
    (hsep : ∀ i1, i1 < text.length → ∀ i2, i2 < text.length →
      matchAt k text i1 = true → matchAt k text i2 = true → i1 < i2 →
      i1 + patLen k ≤ i2) :
    ∀ fuel i j, i ≤ j → matchAt k text j = true → text.length ≤ i + fuel →
      (j, j + patLen k) ∈ scanFromAux k text fuel i := by
  intro fuel
  induction fuel with
  | zero =>
    intro i j hij hm hlen
    exfalso
    have h1 := matchAt_le hm
    have h2 := patLen_ge_two k
    omega
  | succ fuel ih =>
    intro i j hij hm hlen
    have hjle := matchAt_le hm
    have hp2 := patLen_ge_two k
    have hjlt : j < text.length := by omega
    have hilt : i < text.length := by omega
    simp only [scanFromAux]
    rw [if_pos hilt]
    by_cases hmi : matchAt k text i = true
    · rw [if_pos hmi]
      rcases Nat.eq_or_lt_of_le hij with heq | hlt
      · subst heq
        exact List.mem_cons_self _ _
      · have hsep' := hsep i hilt j hjlt hmi hm hlt
        refine List.mem_cons_of_mem _ (ih (i + patLen k) j hsep' hm ?_)
        omega
    · rw [if_neg hmi]
      have hne : i ≠ j := by
        intro h
        subst h
        exact hmi hm
      exact ih (i + 1) j (by omega) hm (by omega)

/-- Soundness at the top level. -/
theorem scanMatches_sound {k text : List Char} {s e : Nat}
    (h : (s, e) ∈ scanMatches k text) :
    matchAt k text s = true ∧ e = s + patLen k :=
  scanFromAux_sound k text _ _ _ _ h

/-- Completeness at the top level. -/
theorem scanMatches_complete {k text : List Char} {j : Nat}
    (hsep : ∀ i1, i1 < text.length → ∀ i2, i2 < text.length →
      matchAt k text i1 = true → matchAt k text i2 = true → i1 < i2 →
      i1 + patLen k ≤ i2)
    (hm : matchAt k text j = true) :
    (j, j + patLen k) ∈ scanMatches k text :=
  scanFromAux_complete k text hsep _ 0 j (Nat.zero_le j) hm (by omega)

/-! ### Lemmas about placement construction -/

/-- Membership in the per-key placement list, sound direction. -/
theorem placementsOf_sound {value text : List Char} {hidden : List Nat}
    {L : List (Nat × Nat)} {p : Placement} (h : p ∈ placementsOf value text hidden L) :
    ∃ s e, (s, e) ∈ L ∧ hidden.contains (lineOf text s) = false ∧
      p = { startOffset := s, endOffset := e,
            annotationText := arrowText ++ value, lineNumber := lineOf text s } := by
  induction L with
  | nil => simp [placementsOf] at h
  | cons se rest ih =>
    rcases se with ⟨s, e⟩
    simp only [placementsOf] at h
    by_cases hh : hidden.contains (lineOf text s) = true
    · rw [if_pos hh] at h
      rcases ih h with ⟨s1, e1, hmem, hhid, hp⟩
      exact ⟨s1, e1, List.mem_cons_of_mem _ hmem, hhid, hp⟩
    · rw [if_neg hh] at h
      rcases List.mem_cons.mp h with h1 | h1
      · exact ⟨s, e, List.mem_cons_self _ _, Bool.not_eq_true _ ▸ eq_false_of_ne_true hh, h1⟩
      · rcases ih h1 with ⟨s1, e1, hmem, hhid, hp⟩
        exact ⟨s1, e1, List.mem_cons_of_mem _ hmem, hhid, hp⟩

/-- Membership in the per-key placement list, complete direction. -/
theorem placementsOf_complete {value text : List Char} {hidden : List Nat}
    {L : List (Nat × Nat)} {s e : Nat} (hmem : (s, e) ∈ L)
    (hhid : hidden.contains (lineOf text s) = false) :
    ({ startOffset := s, endOffset := e, annotationText := arrowText ++ value,
       lineNumber := lineOf text s } : Placement) ∈ placementsOf value text hidden L := by
  induction L with
  | nil => simp at hmem
  | cons se rest ih =>
    rcases se with ⟨s1, e1⟩
    rcases List.mem_cons.mp hmem with h1 | h1
    · have hs : s1 = s ∧ e1 = e :=
        ⟨(congrArg Prod.fst h1).symm, (congrArg Prod.snd h1).symm⟩
      rcases hs with ⟨hs1, hs2⟩
      subst hs1
      subst hs2
      simp only [placementsOf, hhid]
      simp
    · simp only [placementsOf]
      by_cases hh : hidden.contains (lineOf text s1) = true
      · rw [if_pos hh]
        exact ih h1
      · rw [if_neg hh]
        exact List.mem_cons_of_mem _ (ih h1)

/-- Membership in the all-keys placement list. -/
theorem scanAllKeys_mem {dict : KeyValueMap} {text : List Char}
    {hidden : List Nat} {p : Placement} :
    p ∈ scanAllKeys dict text hidden ↔
      ∃ kv, kv ∈ dict ∧ p ∈ placementsForKey kv.1 kv.2 text hidden := by
  induction dict with
  | nil => simp [scanAllKeys]
  | cons kv rest ih =>
    rcases kv with ⟨k, v⟩
    simp only [scanAllKeys, List.mem_append, ih, List.mem_cons]
    constructor
    · rintro (h | ⟨kv1, hm, hp⟩)
      · exact ⟨(k, v), Or.inl rfl, h⟩
      · exact ⟨kv1, Or.inr hm, hp⟩
    · rintro ⟨kv1, hm | hm, hp⟩
      · subst hm
        exact Or.inl hp
      · exact Or.inr ⟨kv1, hm, hp⟩

/-- With no suppressed line, a placement is produced for every match. -/
theorem placementsOf_nil (value text : List Char) (L : List (Nat × Nat)) :
    placementsOf value text [] L =
      L.map (fun se =>
        { startOffset := se.1, endOffset := se.2,
          annotationText := arrowText ++ value,
          lineNumber := lineOf text se.1 }) := by
  induction L with
  | nil => rfl
  | cons se rest ih =>
    rcases se with ⟨s, e⟩
    simp [placementsOf, ih]

/-- Suppression is a filter: the placements computed with suppressed lines
`hidden` are exactly the unsuppressed placements whose line is not in
`hidden`. -/
theorem placementsOf_hidden_filter (value text : List Char) (hidden : List Nat)
    (L : List (Nat × Nat)) :
    placementsOf value text hidden L =
      (placementsOf value text [] L).filter
        (fun p => !(hidden.contains p.lineNumber)) := by
  induction L with
  | nil => rfl
  | cons se rest ih =>
    rcases se with ⟨s, e⟩
    have hnil : ¬((([] : List Nat).contains (lineOf text s)) = true) := by
      intro h
      simp at h
    by_cases hh : hidden.contains (lineOf text s) = true
    · simp only [placementsOf]
      rw [if_pos hh, if_neg hnil, List.filter_cons,
        if_neg (by rw [hh]; decide), ih]
    · have hh2 : hidden.contains (lineOf text s) = false := by
        cases h : hidden.contains (lineOf text s)
        · rfl
        · exact absurd h hh
      simp only [placementsOf]
      rw [if_neg hh, if_neg hnil, List.filter_cons,
        if_pos (by rw [hh2]; decide), ih]

/-- Suppression as a filter, over the whole dictionary. -/
theorem scanAllKeys_hidden_filter (dict : KeyValueMap) (text : List Char)
    (hidden : List Nat) :
    scanAllKeys dict text hidden =
      (scanAllKeys dict text []).filter
        (fun p => !(hidden.contains p.lineNumber)) := by
  induction dict with
  | nil => rfl
  | cons kv rest ih =>
    rcases kv with ⟨k, v⟩
    simp only [scanAllKeys, List.filter_append, ih, placementsForKey]
    rw [placementsOf_hidden_filter]

/-! ### Relational semantics of the filename-pattern filter -/

/-- Every placement produced by the all-keys scan starts and ends on the
same quote character. -/
theorem scanAllKeys_same_quote {dict : KeyValueMap} {text : List Char}
    {hidden : List Nat} {p : Placement} (hp : p ∈ scanAllKeys dict text hidden) :
    ∃ q, quoteChars.contains q = true ∧ text[p.startOffset]? = some q ∧
      text[p.endOffset - 1]? = some q := by
  rcases scanAllKeys_mem.mp hp with ⟨kv, _, hpk⟩
  rcases placementsOf_sound hpk with ⟨s, e, hse, _, hpeq⟩
  rcases scanMatches_sound hse with ⟨hm, he⟩
  rcases matchAt_spec hm with ⟨q, hq, h1, h2, _⟩
  subst hpeq
  refine ⟨q, hq, h1, ?_⟩
  show text[e - 1]? = some q
  rw [he]
  exact h2

/-! ### Claims -/

/-- C1, counterexample: with the dictionary `{k: v}` and the text `'k'k'`,
the text contains a quoted occurrence of the key `k` starting at offset 2
(`matchAt` holds there), no line is suppressed, yet `updateDecorations`
emits only the placement covering offsets 0–3 — the occurrence at offset 2
overlaps the first match and is skipped by the non-overlapping scan, so no
placement covers the span 2–5 as the claim demands. -/
theorem c1_counterexample :
    matchAt (['k']) ([squote, 'k', squote, 'k', squote]) 2 = true ∧
    updateDecorationsA true none [((['k']), ['v'])] [] []
        ([squote, 'k', squote, 'k', squote]) =
      [{ startOffset := 0, endOffset := 3,
         annotationText := arrowText ++ (['v']), lineNumber := 0 }] ∧
    (∀ p, p ∈ updateDecorationsA true none [((['k']), ['v'])] [] []
        ([squote, 'k', squote, 'k', squote]) →
      ¬(p.startOffset = 2 ∧ p.endOffset = 5)) := by
  decide

/-- C1 (amended): for every key `k` with value `v` in the dictionary and
every occurrence of `k` wrapped in a matching pair of identical quote
characters, *provided no two quoted occurrences of `k` in the text
overlap* (the scan takes left-to-right non-overlapping matches), the
engine emits a placement covering exactly that quoted span, with
annotation text containing `v`, unless the line of the occurrence's start
is suppressed. -/
theorem c1_nonoverlapping_occurrence_placed
    (dict : KeyValueMap) (k v : List Char) (cfg : Option ConfigA)
    (hidden : List Nat) (fileName text : List Char) (j : Nat)
    (hmem : (k, v) ∈ dict)
    (hmatch : matchAt k text j = true)
    (hsep : ∀ i1, i1 < text.length → ∀ i2, i2 < text.length →
      matchAt k text i1 = true → matchAt k text i2 = true → i1 < i2 →
      i1 + patLen k ≤ i2)
    (happly : shouldApplyToFileA cfg fileName = true)
    (hline : hidden.contains (lineOf text j) = false) :
    ({ startOffset := j, endOffset := j + patLen k,
       annotationText := arrowText ++ v,
       lineNumber := lineOf text j } : Placement)
      ∈ updateDecorationsA true cfg dict hidden fileName text := by
  unfold updateDecorationsA
  rw [if_neg (by decide), if_neg (by rw [happly]; decide)]
  exact scanAllKeys_mem.mpr
    ⟨(k, v), hmem, placementsOf_complete (scanMatches_complete hsep hmatch) hline⟩

/-- C1, witness: the amended theorem applied to the dictionary `{k: v}`
and the single-line text `'k'`. -/
theorem c1_nonoverlapping_occurrence_placed_witness :
    ({ startOffset := 0, endOffset := 3,
       annotationText := arrowText ++ (['v']),
       lineNumber := 0 } : Placement)
      ∈ updateDecorationsA true none [((['k']), ['v'])] [] []
          ([squote, 'k', squote]) := by
  have h := c1_nonoverlapping_occurrence_placed [((['k']), ['v'])] (['k']) (['v'])
    none [] [] ([squote, 'k', squote]) 0 (by decide) (by decide) (by decide)
    (by decide) (by decide)
  exact h

/-- C2: every placement emitted by either variant covers a span whose
first and last characters are the same quote character (so a key
surrounded by two different quote characters never produces a
placement). -/
theorem c2_same_quote_endpoints (e : Bool) (cfgA : Option ConfigA)
    (cfgB : Option ConfigB) (dict : KeyValueMap) (hidden : List Nat)
    (hl : Option Nat) (fileName text : List Char) (p : Placement) :
    (p ∈ updateDecorationsA e cfgA dict hidden fileName text →
      ∃ q, quoteChars.contains q = true ∧ text[p.startOffset]? = some q ∧
        text[p.endOffset - 1]? = some q) ∧
    (p ∈ updateDecorationsB e cfgB dict hl fileName text →
      ∃ q, quoteChars.contains q = true ∧ text[p.startOffset]? = some q ∧
        text[p.endOffset - 1]? = some q) := by
  constructor
  · intro hp
    unfold updateDecorationsA at hp
    split at hp
    · simp at hp
    · split at hp
      · simp at hp
      · exact scanAllKeys_same_quote hp
  · intro hp
    unfold updateDecorationsB at hp
    split at hp
    · simp at hp
    · split at hp
      · simp at hp
      · split at hp
        · simp at hp
        · exact scanAllKeys_same_quote hp

/-- C2, witness: the endpoint property instantiated on the placement the
engine computes for the dictionary `{k: v}` and the text `'k'`. -/
theorem c2_same_quote_endpoints_witness :
    ∃ q, quoteChars.contains q = true ∧
      (([squote, 'k', squote])[(0 : Nat)]? = some q) ∧
      (([squote, 'k', squote])[(3 : Nat) - 1]? = some q) :=
  (c2_same_quote_endpoints true none none [((['k']), ['v'])] [] none []
    ([squote, 'k', squote])
    { startOffset := 0, endOffset := 3,
      annotationText := arrowText ++ (['v']), lineNumber := 0 }).1
    (by decide)

/-- C4: whenever a precondition fails — the engine is disabled, the
dictionary is empty, or the file filter rejects the file — the computed
placement sequence is empty, in both variants.  (Variant A has no explicit
empty-dictionary early return, but an empty dictionary makes the key loop
produce nothing.) -/
theorem c4_preconditions_empty (e : Bool) (cfgA : Option ConfigA)
    (cfgB : Option ConfigB) (dict : KeyValueMap) (hidden : List Nat)
    (hl : Option Nat) (fileName text : List Char) :
    ((e = false ∨ dict = [] ∨ shouldApplyToFileA cfgA fileName = false) →
      updateDecorationsA e cfgA dict hidden fileName text = []) ∧
    ((e = false ∨ dict = [] ∨ shouldApplyToFileB cfgB fileName = false) →
      updateDecorationsB e cfgB dict hl fileName text = []) := by
  constructor
  · rintro (h | h | h)
    · subst h
      rfl
    · subst h
      simp [updateDecorationsA, scanAllKeys]
    · simp [updateDecorationsA, h]
  · rintro (h | h | h)
    · subst h
      rfl
    · subst h
      simp [updateDecorationsB, isKeyMappingLoaded]
    · simp [updateDecorationsB, h]

/-- C4, witness: both variants at a disabled engine with a non-empty
dictionary. -/
theorem c4_preconditions_empty_witness :
    updateDecorationsA false none [((['k']), ['v'])] [] [] ([squote, 'k', squote]) = [] ∧
    updateDecorationsB false none [((['k']), ['v'])] none [] ([squote, 'k', squote]) = [] :=
  ⟨(c4_preconditions_empty false none none [((['k']), ['v'])] [] none []
      ([squote, 'k', squote])).1 (Or.inl rfl),
   (c4_preconditions_empty false none none [((['k']), ['v'])] [] none []
      ([squote, 'k', squote])).2 (Or.inl rfl)⟩

/-- Suppression-set membership after adding one line, as a filter
predicate. -/
theorem not_contains_cons (x L : Nat) (hidden : List Nat) :
    (!((L :: hidden).contains x)) = ((!(x == L)) && !(hidden.contains x)) := by
  rw [List.contains_cons]
  cases hx : x == L <;> cases hc : hidden.contains x <;> simp [hx, hc]

/-- C3: flattening recurses exactly into plain (non-null, non-array)
object values, joining parent and child keys with `.`; every other value —
arrays included — is a leaf stored stringified at the current key path;
and on `{a: {b: 1, c: [1, 2]}}` the result is exactly
`{"a.b": "1", "a.c": "1,2"}`. -/
theorem c3_flatten_semantics :
    (∀ (fields g : List ((List Char) × Json)) (key pre : List Char)
        (res : KeyValueMap),
      flattenFields ((key, Json.obj g) :: fields) pre res =
        flattenFields fields pre (flattenFields g (joinKey pre key) res)) ∧
    (∀ (fields : List ((List Char) × Json)) (key pre : List Char) (v : Json)
        (res : KeyValueMap),
      isPlainObject v = false →
      flattenFields ((key, v) :: fields) pre res =
        flattenFields fields pre (mapSet res (joinKey pre key) (jsToString v))) ∧
    flattenObject
        (Json.obj [((("a").data),
          Json.obj [((("b").data), Json.num 1),
                    ((("c").data), Json.arr [Json.num 1, Json.num 2])])])
        [] []
      = [((("a.b").data), (("1").data)), ((("a.c").data), (("1,2").data))] := by
  refine ⟨?_, ?_, ?_⟩
  · intro fields g key pre res
    simp [flattenFields, isPlainObject, flattenObject]
  · intro fields key pre v res hv
    simp [flattenFields, hv]
  · simp [flattenObject, flattenFields, isPlainObject, joinKey, mapSet, jsToString,
      arrElemToString, arrJoin]
    decide

/-- C3, witness: the leaf equation applied to a one-field object holding an
array value. -/
theorem c3_flatten_semantics_witness :
    flattenFields [((("c").data), Json.arr [Json.num 1, Json.num 2])] (("a").data) [] =
      flattenFields [] (("a").data)
        (mapSet [] (joinKey (("a").data) (("c").data))
          (jsToString (Json.arr [Json.num 1, Json.num 2]))) :=
  c3_flatten_semantics.2.1 [] (("c").data) (("a").data)
    (Json.arr [Json.num 1, Json.num 2]) [] (by rfl)

/-- C6, counterexample: in the single-suppressed-line variant, with the
dictionary `{k: v}` and the two-line text `'k'↵'k'` and line 0 currently
hidden, `hideDecorationsForLine(1)` *replaces* the suppressed line: the
set computed afterwards contains the line-0 placement again, so it is not
the previously computed set minus the line-1 placements. -/
theorem c6_counterexample :
    updateDecorationsB true none [((['k']), ['v'])] (some 1) []
        ([squote, 'k', squote, '\n', squote, 'k', squote]) ≠
      (updateDecorationsB true none [((['k']), ['v'])] (some 0) []
          ([squote, 'k', squote, '\n', squote, 'k', squote])).filter
        (fun p => !(p.lineNumber == 1)) := by
  decide

/-- C6 (amended): in the set-based variant, hiding line `L` yields exactly
the previously computed set minus the line-`L` placements (placements of
other lines, previously hidden lines included, unchanged); in the
single-line variant, hiding `L` *replaces* the suppressed line, yielding
the unsuppressed set minus the line-`L` placements; and in the set-based
variant every computed set is the filter of the unsuppressed set by the
suppression set, so clearing all hidden lines restores the full set. -/
theorem c6_hide_clear_semantics :
    (∀ (e : Bool) (cfg : Option ConfigA) (dict : KeyValueMap)
        (hidden : List Nat) (L : Nat) (fileName text : List Char),
      updateDecorationsA e cfg dict (L :: hidden) fileName text =
        (updateDecorationsA e cfg dict hidden fileName text).filter
          (fun p => !(p.lineNumber == L))) ∧
    (∀ (e : Bool) (cfg : Option ConfigB) (dict : KeyValueMap) (L : Nat)
        (fileName text : List Char),
      updateDecorationsB e cfg dict (some L) fileName text =
        (updateDecorationsB e cfg dict none fileName text).filter
          (fun p => !(p.lineNumber == L))) ∧
    (∀ (e : Bool) (cfg : Option ConfigA) (dict : KeyValueMap)
        (hidden : List Nat) (fileName text : List Char),
      updateDecorationsA e cfg dict hidden fileName text =
        (updateDecorationsA e cfg dict [] fileName text).filter
          (fun p => !(hidden.contains p.lineNumber))) := by
  refine ⟨?_, ?_, ?_⟩
  · intro e cfg dict hidden L fileName text
    by_cases he : e = false
    · unfold updateDecorationsA
      rw [if_pos he, if_pos he]
      rfl
    · by_cases ha : shouldApplyToFileA cfg fileName = false
      · unfold updateDecorationsA
        rw [if_neg he, if_neg he, if_pos ha, if_pos ha]
        rfl
      · unfold updateDecorationsA
        rw [if_neg he, if_neg he, if_neg ha, if_neg ha,
          scanAllKeys_hidden_filter dict text (L :: hidden),
          scanAllKeys_hidden_filter dict text hidden, List.filter_filter]
        exact List.filter_congr (fun a _ => not_contains_cons a.lineNumber L hidden)
  · intro e cfg dict L fileName text
    by_cases he : e = false
    · unfold updateDecorationsB
      rw [if_pos he, if_pos he]
      rfl
    · by_cases hk : isKeyMappingLoaded dict = false
      · unfold updateDecorationsB
        rw [if_neg he, if_neg he, if_pos hk, if_pos hk]
        rfl
      · by_cases ha : shouldApplyToFileB cfg fileName = false
        · unfold updateDecorationsB
          rw [if_neg he, if_neg he, if_neg hk, if_neg hk, if_pos ha, if_pos ha]
          rfl
        · unfold updateDecorationsB
          rw [if_neg he, if_neg he, if_neg hk, if_neg hk, if_neg ha, if_neg ha,
            scanAllKeys_hidden_filter dict text (hiddenOf (some L)),
            scanAllKeys_hidden_filter dict text (hiddenOf none), List.filter_filter]
          refine List.filter_congr (fun a _ => ?_)
          simp [hiddenOf, beq_eq_decide]
  · intro e cfg dict hidden fileName text
    by_cases he : e = false
    · unfold updateDecorationsA
      rw [if_pos he, if_pos he]
      rfl
    · by_cases ha : shouldApplyToFileA cfg fileName = false
      · unfold updateDecorationsA
        rw [if_neg he, if_neg he, if_pos ha, if_pos ha]
        rfl
      · unfold updateDecorationsA
        rw [if_neg he, if_neg he, if_neg ha, if_neg ha,
          scanAllKeys_hidden_filter dict text hidden]

/-- Skipping behaviour of the per-file loop: an unparsable file contributes
nothing and the loop continues with the rest. -/
theorem loadFiles_skip_parseError (pre post : List FileRead) (acc : KeyValueMap) :
    loadFiles (pre ++ FileRead.parseError :: post) acc = loadFiles (pre ++ post) acc := by
  induction pre generalizing acc with
  | nil => rfl
  | cons f rest ih =>
    cases f <;> simp [loadFiles, ih]

/-- C7: the loader is a total function of the configuration read and the
resolved file contents alone — every load first discards the previous
dictionary, so the result never depends on it; a failed configuration read
leaves the dictionary empty; and a parse failure of an individual source
file is skipped while the remaining files still load, in both variants. -/
theorem c7_loader_resilience :
    (∀ (sA : StateA) (cr : ConfigReadA) (files : List FileRead) (m : KeyValueMap),
      (loadA cr files sA).keyValueMap =
        (loadA cr files { sA with keyValueMap := m }).keyValueMap) ∧
    (∀ (sA : StateA) (files : List FileRead),
      (loadA ConfigReadA.readError files sA).keyValueMap = []) ∧
    (∀ (sA : StateA) (cr : ConfigReadA) (pre post : List FileRead),
      (loadA cr (pre ++ FileRead.parseError :: post) sA).keyValueMap =
        (loadA cr (pre ++ post) sA).keyValueMap) ∧
    (∀ (sB : StateB) (cr : ConfigReadB) (files : List FileRead) (m : KeyValueMap),
      (loadB cr files sB).keyValueMap =
        (loadB cr files { sB with keyValueMap := m }).keyValueMap) ∧
    (∀ (sB : StateB) (files : List FileRead),
      (loadB ConfigReadB.readError files sB).keyValueMap = []) ∧
    (∀ (sB : StateB) (cr : ConfigReadB) (pre post : List FileRead),
      (loadB cr (pre ++ FileRead.parseError :: post) sB).keyValueMap =
        (loadB cr (pre ++ post) sB).keyValueMap) := by
  refine ⟨?_, ?_, ?_, ?_, ?_, ?_⟩
  · intro sA cr files m
    cases cr <;> rfl
  · intro sA files
    rfl
  · intro sA cr pre post
    cases cr with
    | readError => rfl
    | parsedNull => rfl
    | parsedCfg cfg => exact loadFiles_skip_parseError pre post []
  · intro sB cr files m
    cases cr <;> rfl
  · intro sB files
    rfl
  · intro sB cr pre post
    cases cr with
    | readError => rfl
    | parsedNull => rfl
    | parsedCfg cfg => exact loadFiles_skip_parseError pre post []

/-- C8, divergence at a concrete input: both variants hold the single
placement covering offsets 0–3 as their last-computed placements and have
line 0 suppressed; the cursor moves to offset 10, inside no placement.
The split variant clears the suppression state as the claim says, but the
single-file variant leaves line 0 suppressed — its selection handler has
no else-branch, although its own comment promises "Show decorations again
after 3 seconds or when clicking elsewhere". -/
theorem c8_click_elsewhere_divergence :
    ((onSelectionA [] ([squote, 'k', squote]) 10
        { keyValueMap := [((['k']), ['v'])], isEnabled := true,
          hiddenLines := [0], config := none,
          activeDecorations := [⟨0, 3, arrowText ++ (['v']), 0⟩] }).hiddenLines
      = [0]) ∧
    ((onSelectionB [] ([squote, 'k', squote]) 10
        { keyValueMap := [((['k']), ['v'])], isEnabled := true,
          hiddenLine := some 0, config := none,
          activeDecorations := [⟨0, 3, arrowText ++ (['v']), 0⟩] }).hiddenLine
      = none) := by
  decide

/-- C9: `refresh` is idempotent — re-running it with the same configuration
read, the same resolved file contents and the same document leaves the
whole engine state (dictionary, suppression, stored configuration and
computed placements) exactly as after the first run, in both variants. -/
theorem c9_refresh_idempotent (crA : ConfigReadA) (crB : ConfigReadB)
    (files : List FileRead) (fileName text : List Char)
    (sA : StateA) (sB : StateB) :
    refreshA crA files fileName text (refreshA crA files fileName text sA) =
      refreshA crA files fileName text sA ∧
    refreshB crB files fileName text (refreshB crB files fileName text sB) =
      refreshB crB files fileName text sB := by
  constructor
  · cases crA with
    | readError =>
      by_cases he : sA.isEnabled = false <;>
        by_cases ha : shouldApplyToFileA sA.config fileName = false <;>
          simp [refreshA, loadA, updateDecorationsStateA, he, ha]
    | parsedNull =>
      by_cases he : sA.isEnabled = false <;>
        simp [refreshA, loadA, updateDecorationsStateA, he, shouldApplyToFileA]
    | parsedCfg cfg =>
      by_cases he : sA.isEnabled = false <;>
        by_cases ha : shouldApplyToFileA (some cfg) fileName = false <;>
          simp [refreshA, loadA, updateDecorationsStateA, he, ha]
  · cases crB with
    | readError =>
      by_cases he : sB.isEnabled = false <;>
        by_cases ha : shouldApplyToFileB sB.config fileName = false <;>
          simp [refreshB, loadB, updateDecorationsStateB, he, ha, isKeyMappingLoaded]
    | parsedNull =>
      by_cases he : sB.isEnabled = false <;>
        simp [refreshB, loadB, updateDecorationsStateB, he, shouldApplyToFileB,
          isKeyMappingLoaded]
    | parsedCfg cfg =>
      by_cases he : sB.isEnabled = false <;>
        by_cases ha : shouldApplyToFileB (some cfg) fileName = false <;>
          by_cases hk : isKeyMappingLoaded (loadFiles files []) = false <;>
            simp [refreshB, loadB, updateDecorationsStateB, he, ha, hk]

/-- C10: a placement is only ever emitted for a span whose characters
between the quotes are exactly some dictionary key — the escaping makes
the key match literally, so a key containing regex metacharacters (such as
the dots produced by flattening) never matches a different string. -/
theorem c10_literal_key_match (e : Bool) (cfg : Option ConfigA)
    (dict : KeyValueMap) (hidden : List Nat) (fileName text : List Char)
    (p : Placement)
    (hp : p ∈ updateDecorationsA e cfg dict hidden fileName text) :
    ∃ k v, (k, v) ∈ dict ∧
      (text.drop (p.startOffset + 1)).take k.length = k ∧
      p.endOffset = p.startOffset + k.length + 2 := by
  have hscan : p ∈ scanAllKeys dict text hidden := by
    unfold updateDecorationsA at hp
    split at hp
    · simp at hp
    · split at hp
      · simp at hp
      · exact hp
  rcases scanAllKeys_mem.mp hscan with ⟨kv, hkv, hpk⟩
  rcases placementsOf_sound hpk with ⟨s, e2, hse, _, hpeq⟩
  rcases scanMatches_sound hse with ⟨hm, he2⟩
  rcases matchAt_spec hm with ⟨q, _, _, _, hslice⟩
  have hlen : (keyToks kv.1).length = kv.1.length := by
    rw [keyToks_eq, List.length_map]
  subst hpeq
  refine ⟨kv.1, kv.2, hkv, hslice, ?_⟩
  show e2 = s + kv.1.length + 2
  rw [he2]
  simp only [patLen, hlen]
  omega

/-- C10, witness: the dictionary key `button.save` — flattened, so holding
a regex metacharacter — yields a placement only around its literal quoted
occurrence; the span `'buttonXsave'`, which the unescaped pattern would
match, yields none. -/
theorem c10_literal_key_match_witness :
    (∃ k v, (k, v) ∈ [((("button.save").data), (("Save").data))] ∧
      ((([squote] ++ ("button.save").data ++ [squote]).drop (0 + 1)).take k.length = k) ∧
      (13 : Nat) = 0 + k.length + 2) ∧
    scanAllKeys [((("button.save").data), (("Save").data))]
      ([squote] ++ ("buttonXsave").data ++ [squote]) [] = [] := by
  constructor
  · exact c10_literal_key_match true none [((("button.save").data), (("Save").data))]
      [] [] ([squote] ++ ("button.save").data ++ [squote])
      { startOffset := 0, endOffset := 13,
        annotationText := arrowText ++ (("Save").data), lineNumber := 0 }
      (by decide)
  · decide

/-- C6, witness: the set-based filter equation of the amended claim at a
concrete dictionary, text and line. -/
theorem c6_hide_clear_semantics_witness :
    updateDecorationsA true none [((['k']), ['v'])] [0] [] ([squote, 'k', squote]) =
      (updateDecorationsA true none [((['k']), ['v'])] [] []
          ([squote, 'k', squote])).filter (fun p => !(p.lineNumber == 0)) :=
  c6_hide_clear_semantics.1 true none [((['k']), ['v'])] [] 0 [] ([squote, 'k', squote])

/-- C7, witness: a failed configuration read empties a previously non-empty
dictionary. -/
theorem c7_loader_resilience_witness :
    (loadB ConfigReadB.readError []
      (⟨[((['k']), ['v'])], true, none, none, []⟩ : StateB)).keyValueMap = [] :=
  c7_loader_resilience.2.2.2.2.1 (⟨[((['k']), ['v'])], true, none, none, []⟩ : StateB) []

/-- C9, witness: idempotence of `refresh` at a concrete pair of states and
a concrete document. -/
theorem c9_refresh_idempotent_witness :
    refreshA ConfigReadA.readError [] [] ([squote, 'k', squote])
        (refreshA ConfigReadA.readError [] [] ([squote, 'k', squote])
          (⟨[], true, [], none, []⟩ : StateA)) =
      refreshA ConfigReadA.readError [] [] ([squote, 'k', squote])
        (⟨[], true, [], none, []⟩ : StateA) ∧
    refreshB ConfigReadB.readError [] [] ([squote, 'k', squote])
        (refreshB ConfigReadB.readError [] [] ([squote, 'k', squote])
          (⟨[], true, none, none, []⟩ : StateB)) =
      refreshB ConfigReadB.readError [] [] ([squote, 'k', squote])
        (⟨[], true, none, none, []⟩ : StateB) :=
  c9_refresh_idempotent ConfigReadA.readError ConfigReadB.readError [] []
    ([squote, 'k', squote]) (⟨[], true, [], none, []⟩ : StateA)
    (⟨[], true, none, none, []⟩ : StateB)

end KeyLens
